import Mathlib

/-!
Verification development for the zoraxy response-cache core: a shallow
embedding, in Lean, of the cache key generator, cacheability rules,
cache middleware, optimizer transforms (minify / compress / decompress),
the filesystem store's purge logic and the optimization worker queue,
together with theorems settling the specified properties.

Modelling conventions:
* Go byte strings are modelled by Lean `String`; where the byte level
  matters (hashing, percent-encoding) strings are lowered to their
  UTF-8 byte lists (`List Nat`, each element < 256).
* Machine integers (`int64`, `time.Duration` in nanoseconds) are
  modelled as `Int`; overflow never occurs in the stated properties.
* `io.Reader` values are modelled as a list of remaining bytes plus a
  flag recording whether the dynamic type implements `io.ReadCloser`;
  reading consumes bytes from the front.
* External libraries (gzip, brotli, tdewolff/minify, regexp) are
  parameters of the embedded functions, as they are not part of the
  repository's code.
-/

/-- 32-bit truncation. -/
def w32 (x : Nat) : Nat := x % 4294967296

/-- Right rotation of a 32-bit word. -/
def rotr32 (n x : Nat) : Nat := w32 ((x >>> n) ||| (x <<< (32 - n)))

def sha2Ch (x y z : Nat) : Nat := (x &&& y) ^^^ ((x ^^^ 4294967295) &&& z)

def sha2Maj (x y z : Nat) : Nat := (x &&& y) ^^^ (x &&& z) ^^^ (y &&& z)

def bigSigma0 (x : Nat) : Nat := rotr32 2 x ^^^ rotr32 13 x ^^^ rotr32 22 x

def bigSigma1 (x : Nat) : Nat := rotr32 6 x ^^^ rotr32 11 x ^^^ rotr32 25 x

def smallSigma0 (x : Nat) : Nat := rotr32 7 x ^^^ rotr32 18 x ^^^ (x >>> 3)

def smallSigma1 (x : Nat) : Nat := rotr32 17 x ^^^ rotr32 19 x ^^^ (x >>> 10)

/-- The SHA-256 round constants. -/
def sha256K : List Nat :=
  [1116352408, 1899447441, 3049323471, 3921009573, 961987163, 1508970993,
   2453635748, 2870763221, 3624381080, 310598401, 607225278, 1426881987,
   1925078388, 2162078206, 2614888103, 3248222580, 3835390401, 4022224774,
   264347078, 604807628, 770255983, 1249150122, 1555081692, 1996064986,
   2554220882, 2821834349, 2952996808, 3210313671, 3336571891, 3584528711,
   113926993, 338241895, 666307205, 773529912, 1294757372, 1396182291,
   1695183700, 1986661051, 2177026350, 2456956037, 2730485921, 2820302411,
   3259730800, 3345764771, 3516065817, 3600352804, 4094571909, 275423344,
   430227734, 506948616, 659060556, 883997877, 958139571, 1322822218,
   1537002063, 1747873779, 1955562222, 2024104815, 2227730452, 2361852424,
   2428436474, 2756734187, 3204031479, 3329325298]

/-- SHA-256 working state: eight 32-bit words. -/
structure Sha256State where
  a : Nat
  b : Nat
  c : Nat
  d : Nat
  e : Nat
  f : Nat
  g : Nat
  h : Nat

def sha256InitState : Sha256State :=
  ⟨1779033703, 3144134277, 1013904242, 2773480762, 1359893119, 2600822924, 528734635, 1541459225⟩

/-- Extend a 16-word message schedule by `n` further words. -/
def sha256Extend (w : List Nat) : Nat → List Nat
  | 0 => w
  | n + 1 =>
    let t := w32 (smallSigma1 (w.getD (w.length - 2) 0) + w.getD (w.length - 7) 0 +
                  smallSigma0 (w.getD (w.length - 15) 0) + w.getD (w.length - 16) 0)
    sha256Extend (w ++ [t]) n

def sha256Round (st : Sha256State) (kw : Nat × Nat) : Sha256State :=
  let t1 := w32 (st.h + bigSigma1 st.e + sha2Ch st.e st.f st.g + kw.1 + kw.2)
  let t2 := w32 (bigSigma0 st.a + sha2Maj st.a st.b st.c)
  ⟨w32 (t1 + t2), st.a, st.b, st.c, w32 (st.d + t1), st.e, st.f, st.g⟩

def sha256Block (st : Sha256State) (block : List Nat) : Sha256State :=
  let ws := sha256Extend block 48
  let st' := (sha256K.zip ws).foldl sha256Round st
  ⟨w32 (st.a + st'.a), w32 (st.b + st'.b), w32 (st.c + st'.c), w32 (st.d + st'.d),
   w32 (st.e + st'.e), w32 (st.f + st'.f), w32 (st.g + st'.g), w32 (st.h + st'.h)⟩

/-- Split a byte list into chunks of `n` bytes; the fuel argument makes the
recursion structural (callers pass `l.length`, ample whenever `n > 0`). -/
def chunksOfAux (n : Nat) : List Nat → Nat → List (List Nat)
  | [], _ => []
  | _ :: _, 0 => []
  | a :: l, fuel + 1 => (a :: l).take n :: chunksOfAux n ((a :: l).drop n) fuel

/-- Split a byte list into chunks of `n` bytes (`n > 0`). -/
def chunksOf (n : Nat) (l : List Nat) : List (List Nat) := chunksOfAux n l l.length

/-- Big-endian bytes of `x`, `n` bytes wide. -/
def beBytes (n x : Nat) : List Nat := (List.range n).map (fun i => (x >>> (8 * (n - 1 - i))) % 256)

def bytesToWord (l : List Nat) : Nat := l.foldl (fun acc b => acc * 256 + b) 0

def wordBytes (w : Nat) : List Nat := [(w >>> 24) % 256, (w >>> 16) % 256, (w >>> 8) % 256, w % 256]

def digestBytes (st : Sha256State) : List Nat :=
  wordBytes st.a ++ wordBytes st.b ++ wordBytes st.c ++ wordBytes st.d ++
  wordBytes st.e ++ wordBytes st.f ++ wordBytes st.g ++ wordBytes st.h

/-- SHA-256 padding: a 0x80 byte, zeros to 56 mod 64, and the bit length. -/
def sha256Pad (msg : List Nat) : List Nat :=
  msg ++ [128] ++ List.replicate ((119 - msg.length % 64) % 64) 0 ++ beBytes 8 (msg.length * 8)

/-- SHA-256 of a byte list, as the list of 32 digest bytes. -/
def sha256 (msg : List Nat) : List Nat :=
  let blocks := (chunksOf 64 (sha256Pad msg)).map (fun b => (chunksOf 4 b).map bytesToWord)
  digestBytes (blocks.foldl sha256Block sha256InitState)

/-- UTF-8 encoding of a character, as bytes. -/
def charUtf8 (c : Char) : List Nat :=
  let n := c.toNat
  if n < 128 then [n]
  else if n < 2048 then [192 ||| (n >>> 6), 128 ||| (n &&& 63)]
  else if n < 65536 then [224 ||| (n >>> 12), 128 ||| ((n >>> 6) &&& 63), 128 ||| (n &&& 63)]
  else [240 ||| (n >>> 18), 128 ||| ((n >>> 12) &&& 63), 128 ||| ((n >>> 6) &&& 63), 128 ||| (n &&& 63)]

/-- UTF-8 bytes of a string (a Go string is exactly this byte sequence). -/
def utf8Bytes (s : String) : List Nat := s.data.flatMap charUtf8

/-- The sixteen lowercase hexadecimal digit characters. -/
def hexDigits : List Char := "0123456789abcdef".data

def hexChar (n : Nat) : Char := hexDigits.getD (n % 16) '0'

/-- Two lowercase hex characters of a byte, as `encoding/hex` does. -/
def byteHex (b : Nat) : List Char := [hexChar ((b / 16) % 16), hexChar (b % 16)]

/-- Lowercase hex encoding of a byte list (`hex.EncodeToString`). -/
def hexEncode (l : List Nat) : String := ⟨l.flatMap byteHex⟩

theorem digestBytes_length (st : Sha256State) : (digestBytes st).length = 32 := by
  simp [digestBytes, wordBytes]

theorem sha256_length (msg : List Nat) : (sha256 msg).length = 32 := by
  unfold sha256
  exact digestBytes_length _

theorem hexEncode_length (l : List Nat) : (hexEncode l).length = 2 * l.length := by
  show (l.flatMap byteHex).length = 2 * l.length
  induction l with
  | nil => simp
  | cons b t ih =>
    simp only [List.flatMap_cons, List.length_append, List.length_cons, ih, byteHex,
      List.length_nil]
    omega

theorem hexChar_mem (n : Nat) : hexChar n ∈ hexDigits := by
  have hlt : n % 16 < 16 := Nat.mod_lt _ (by decide)
  have : n % 16 < hexDigits.length := by simpa [hexDigits] using hlt
  rw [hexChar, List.getD_eq_getElem _ _ this]
  exact List.getElem_mem this

theorem hexEncode_chars (l : List Nat) : ∀ c ∈ (hexEncode l).data, c ∈ hexDigits := by
  intro c hc
  have hc' : c ∈ l.flatMap byteHex := hc
  rcases List.mem_flatMap.mp hc' with ⟨b, _, hmem⟩
  simp only [byteHex, List.mem_cons, List.not_mem_nil, or_false] at hmem
  rcases hmem with h | h
  · exact h ▸ hexChar_mem _
  · exact h ▸ hexChar_mem _

set_option maxRecDepth 20000 in
example : hexEncode (sha256 (utf8Bytes "abc")) =
    "ba7816bf8f01cfea414140de5dae2223b00361a396177a9cb410ff61f20015ad" := by decide

/-! ### Go string primitives -/

/-- Go `strings.ToLower` restricted to ASCII (all inputs in this
development are ASCII, where Go and Lean lowercase agree). -/
def toLowerGo (s : String) : String := ⟨s.data.map Char.toLower⟩

/-- Split a character list at every occurrence of `sep` (the segment
structure of Go's `strings.Cut` loop over a separator). -/
def splitChar (sep : Char) : List Char → List (List Char)
  | [] => [[]]
  | c :: cs =>
    if c = sep then [] :: splitChar sep cs
    else
      match splitChar sep cs with
      | [] => [[c]]
      | g :: gs => (c :: g) :: gs

/-- Does `needle` occur at the front of `hay`? -/
def listIsPrefix (needle hay : List Char) : Bool :=
  match needle, hay with
  | [], _ => true
  | _ :: _, [] => false
  | a :: as', b :: bs => a = b && listIsPrefix as' bs

/-- Go `strings.Contains`: does `needle` occur anywhere in `hay`? -/
def listContainsSub (hay needle : List Char) : Bool :=
  match hay with
  | [] => listIsPrefix needle []
  | _ :: t => listIsPrefix needle hay || listContainsSub t needle

/-- Go `strings.Contains` on strings. -/
def containsSubstr (s sub : String) : Bool := listContainsSub s.data sub.data

/-- Go `strings.HasPrefix` on strings. -/
def hasPrefixGo (s pre : String) : Bool := listIsPrefix pre.data s.data

/-- Go `strings.Join`. -/
def joinSep (sep : String) : List String → String
  | [] => ""
  | [x] => x
  | x :: y :: xs => x ++ sep ++ joinSep sep (y :: xs)

/-- Byte-lexicographic "less or equal" on character lists, the order
used by Go's `sort.Strings` (code points coincide with bytes for the
ASCII data handled here). -/
def strLeb : List Char → List Char → Bool
  | [], _ => true
  | _ :: _, [] => false
  | x :: xs, y :: ys =>
    if x.toNat < y.toNat then true
    else if y.toNat < x.toNat then false
    else strLeb xs ys

/-- The sorting order on strings used to model `sort.Strings`. -/
def goLe (a b : String) : Prop := strLeb a.data b.data = true

instance goLe.decRel : DecidableRel goLe := fun a b => by
  unfold goLe; infer_instance

theorem strLeb_total (a b : List Char) : strLeb a b = true ∨ strLeb b a = true := by
  induction a generalizing b with
  | nil => left; rfl
  | cons x xs ih =>
    cases b with
    | nil => right; rfl
    | cons y ys =>
      by_cases hxy : x.toNat < y.toNat
      · left; simp [strLeb, hxy]
      · by_cases hyx : y.toNat < x.toNat
        · right; simp [strLeb, hyx]
        · rcases ih ys with h | h
          · left; simp [strLeb, hxy, hyx, h]
          · right; simp [strLeb, hxy, hyx, h]

theorem strLeb_cons_iff (x y : Char) (xs ys : List Char) :
    strLeb (x :: xs) (y :: ys) = true ↔
      x.toNat < y.toNat ∨ (x.toNat = y.toNat ∧ strLeb xs ys = true) := by
  by_cases hxy : x.toNat < y.toNat
  · simp [strLeb, hxy]
  · by_cases hyx : y.toNat < x.toNat
    · simp [strLeb, hxy, hyx]
      omega
    · have hEq : x.toNat = y.toNat := by omega
      simp [strLeb, hxy, hyx, hEq]

theorem strLeb_trans {a b c : List Char} (h1 : strLeb a b = true) (h2 : strLeb b c = true) :
    strLeb a c = true := by
  induction a generalizing b c with
  | nil => rfl
  | cons x xs ih =>
    cases b with
    | nil => simp [strLeb] at h1
    | cons y ys =>
      cases c with
      | nil => simp [strLeb] at h2
      | cons z zs =>
        rw [strLeb_cons_iff] at h1 h2 ⊢
        rcases h1 with h1 | ⟨h1e, h1r⟩
        · rcases h2 with h2 | ⟨h2e, _⟩
          · exact Or.inl (Nat.lt_trans h1 h2)
          · exact Or.inl (h2e ▸ h1)
        · rcases h2 with h2 | ⟨h2e, h2r⟩
          · exact Or.inl (h1e ▸ h2)
          · exact Or.inr ⟨h1e.trans h2e, ih h1r h2r⟩

theorem strLeb_antisymm {a b : List Char} (h1 : strLeb a b = true) (h2 : strLeb b a = true) :
    a = b := by
  induction a generalizing b with
  | nil =>
    cases b with
    | nil => rfl
    | cons y ys => simp [strLeb] at h2
  | cons x xs ih =>
    cases b with
    | nil => simp [strLeb] at h1
    | cons y ys =>
      rw [strLeb_cons_iff] at h1 h2
      have hEq : x.toNat = y.toNat := by omega
      have hx : x = y := Char.ext (UInt32.ext hEq)
      rcases h1 with h1 | ⟨_, h1r⟩
      · omega
      · rcases h2 with h2 | ⟨_, h2r⟩
        · omega
        · exact congrArg₂ (· :: ·) hx (ih h1r h2r)

instance goLe.isTotal : IsTotal String goLe := ⟨fun a b => strLeb_total a.data b.data⟩

instance goLe.isTrans : IsTrans String goLe := ⟨fun _ _ _ => strLeb_trans⟩

instance goLe.isAntisymm : IsAntisymm String goLe :=
  ⟨fun a b h1 h2 => by
    cases a; cases b
    exact congrArg String.mk (strLeb_antisymm h1 h2)⟩

/-- `sort.Strings`: the (unique) `goLe`-sorted permutation of `l`. -/
def sortStrings (l : List String) : List String := l.insertionSort goLe

theorem sortStrings_perm (l : List String) : (sortStrings l).Perm l :=
  List.perm_insertionSort goLe l

theorem sortStrings_eq_of_perm {l₁ l₂ : List String} (h : l₁.Perm l₂) :
    sortStrings l₁ = sortStrings l₂ :=
  List.eq_of_perm_of_sorted
    (((sortStrings_perm l₁).trans h).trans (sortStrings_perm l₂).symm)
    (List.sorted_insertionSort goLe l₁) (List.sorted_insertionSort goLe l₂)

/-! ### `net/url` query parsing and escaping, as used by the key generator -/

def isHexDigitChar (c : Char) : Bool :=
  (48 ≤ c.toNat && c.toNat ≤ 57) || (97 ≤ c.toNat && c.toNat ≤ 102) ||
  (65 ≤ c.toNat && c.toNat ≤ 70)

def hexDigitVal (c : Char) : Nat :=
  if 48 ≤ c.toNat && c.toNat ≤ 57 then c.toNat - 48
  else if 97 ≤ c.toNat && c.toNat ≤ 102 then c.toNat - 87
  else if 65 ≤ c.toNat && c.toNat ≤ 70 then c.toNat - 55
  else 0

/-- Go `url.QueryUnescape`: percent-decoding with `+` → space; an
ill-formed `%` escape is an error (`none`). -/
def unescapeQuery : List Char → Option (List Char)
  | [] => some []
  | '%' :: a :: b :: rest =>
    if isHexDigitChar a && isHexDigitChar b then
      (unescapeQuery rest).map (fun r => Char.ofNat (hexDigitVal a * 16 + hexDigitVal b) :: r)
    else none
  | '%' :: _ => none
  | '+' :: rest => (unescapeQuery rest).map (fun r => ' ' :: r)
  | c :: rest => (unescapeQuery rest).map (fun r => c :: r)

/-- Go `strings.Cut(seg, "=")`: the part before the first `=` and the
part after it (empty when `=` is absent). -/
def cutEq (seg : List Char) : List Char × List Char :=
  (seg.takeWhile (fun c => c ≠ '='), (seg.dropWhile (fun c => c ≠ '=')).drop 1)

/-- One segment of `url.ParseQuery`'s loop: segments containing `;`,
empty segments, and segments with invalid escapes yield no pair. -/
def parseQuerySeg (seg : List Char) : Option (String × String) :=
  if seg.contains ';' then none
  else if seg.isEmpty then none
  else
    let kv := cutEq seg
    match unescapeQuery kv.1, unescapeQuery kv.2 with
    | some k, some v => some (⟨k⟩, ⟨v⟩)
    | _, _ => none

/-- Go `url.ParseQuery` with errors swallowed, exactly as `URL.Query()`
does: the ordered list of successfully parsed key/value pairs. -/
def parseQueryGo (s : String) : List (String × String) :=
  (splitChar '&' s.data).filterMap parseQuerySeg

/-- Does a byte survive `url.QueryEscape` unescaped? (`A-Z a-z 0-9 - _ . ~`) -/
def queryUnreserved (b : Nat) : Bool :=
  (65 ≤ b && b ≤ 90) || (97 ≤ b && b ≤ 122) || (48 ≤ b && b ≤ 57) ||
  b == 45 || b == 95 || b == 46 || b == 126

def hexUpperChar (n : Nat) : Char := "0123456789ABCDEF".data.getD (n % 16) '0'

/-- Go `url.QueryEscape`, working on the UTF-8 bytes of the string. -/
def queryEscape (s : String) : String :=
  ⟨(utf8Bytes s).flatMap (fun b =>
    if b == 32 then ['+']
    else if queryUnreserved b then [Char.ofNat b]
    else ['%', hexUpperChar (b / 16), hexUpperChar (b % 16)])⟩

/-- The multimap values that `url.Values` holds for key `k`, in order
of appearance. -/
def valuesOf (pairs : List (String × String)) (k : String) : List String :=
  pairs.filterMap (fun p => if p.1 = k then some p.2 else none)

/-- `KeyGenerator.normalizeQuery`: sort keys ascending, per key sort the
values ascending, emit `escape(k)=escape(v)` pairs joined by `&`. -/
def normalizeQuery (pairs : List (String × String)) : String :=
  if pairs.isEmpty then ""
  else
    let keys := sortStrings (pairs.map Prod.fst).dedup
    joinSep "&" (keys.flatMap (fun k =>
      (sortStrings (valuesOf pairs k)).map (fun v => queryEscape k ++ "=" ++ queryEscape v)))

/-! ### The key generator -/

/-- `cache.KeyGenerator`. -/
structure KeyGenerator where
  includeQuery : Bool
  varyHeaders : List String
  caseSensitive : Bool

/-- `cache.NewKeyGenerator`. -/
def NewKeyGenerator : KeyGenerator :=
  { includeQuery := true, varyHeaders := ["Accept-Encoding"], caseSensitive := false }

/-- The parts of an `*http.Request` that the cache core reads.
`headerGet h` models `r.Header.Get(h)` (empty string when absent). -/
structure Request where
  isTLS : Bool
  host : String
  urlPath : String
  rawQuery : String
  method : String
  headerGet : String → String

/-- The ordered fingerprint components built by `GenerateKey`. -/
def keyParts (kg : KeyGenerator) (r : Request) : List String :=
  let scheme := if r.isTLS then "https" else "http"
  let host := if kg.caseSensitive then r.host else toLowerGo r.host
  let path := if kg.caseSensitive then r.urlPath else toLowerGo r.urlPath
  let base := [scheme, host, path]
  let withQuery :=
    if kg.includeQuery ∧ r.rawQuery ≠ "" then base ++ [normalizeQuery (parseQueryGo r.rawQuery)]
    else base
  withQuery ++ kg.varyHeaders.filterMap (fun h =>
    let v := r.headerGet h
    if v = "" then none else some (h ++ ":" ++ v))

/-- `KeyGenerator.GenerateKey`: the `|`-joined fingerprint, hashed with
SHA-256 and hex-encoded. -/
def GenerateKey (kg : KeyGenerator) (r : Request) : String :=
  hexEncode (sha256 (utf8Bytes (joinSep "|" (keyParts kg r))))

theorem valuesOf_perm {l₁ l₂ : List (String × String)} (h : l₁.Perm l₂) (k : String) :
    (valuesOf l₁ k).Perm (valuesOf l₂ k) :=
  h.filterMap _

/-- The normalized query string depends only on the multiset of parsed
key/value pairs: sorting keys and values makes it canonical. -/
theorem normalizeQuery_perm {l₁ l₂ : List (String × String)} (h : l₁.Perm l₂) :
    normalizeQuery l₁ = normalizeQuery l₂ := by
  unfold normalizeQuery
  have hemp : l₁.isEmpty = l₂.isEmpty := by
    cases hl₂ : l₂ with
    | nil => simp [List.isEmpty_iff, (hl₂ ▸ h).eq_nil]
    | cons b u =>
      cases hl₁ : l₁ with
      | nil => exact absurd ((hl₁ ▸ h).symm.eq_nil) (by simp [hl₂])
      | cons a t => simp
  rw [hemp]
  by_cases he : l₂.isEmpty
  · simp [he]
  · simp only [he, if_false]
    have hkeys : sortStrings (l₁.map Prod.fst).dedup = sortStrings (l₂.map Prod.fst).dedup :=
      sortStrings_eq_of_perm (h.map Prod.fst).dedup
    have hvals : ∀ k, sortStrings (valuesOf l₁ k) = sortStrings (valuesOf l₂ k) :=
      fun k => sortStrings_eq_of_perm (valuesOf_perm h k)
    rw [hkeys]
    exact congrArg (joinSep "&") (List.flatMap_congr (fun k _ => by rw [hvals k]))

/-- Fingerprint determinism: requests agreeing on the TLS flag, host,
path, parsed-query multiset, emptiness of the raw query and the values
of every configured Vary header produce identical fingerprint parts. -/
theorem keyParts_deterministic (kg : KeyGenerator) (r1 r2 : Request)
    (hs : r1.isTLS = r2.isTLS) (hh : r1.host = r2.host) (hp : r1.urlPath = r2.urlPath)
    (hq : (parseQueryGo r1.rawQuery).Perm (parseQueryGo r2.rawQuery))
    (hqe : r1.rawQuery = "" ↔ r2.rawQuery = "")
    (hv : ∀ h ∈ kg.varyHeaders, r1.headerGet h = r2.headerGet h) :
    keyParts kg r1 = keyParts kg r2 := by
  unfold keyParts
  dsimp only
  rw [hs, hh, hp]
  have hcond : (kg.includeQuery ∧ r1.rawQuery ≠ "") ↔ (kg.includeQuery ∧ r2.rawQuery ≠ "") := by
    constructor
    · rintro ⟨hi, hne⟩; exact ⟨hi, fun hcontra => hne (hqe.mpr hcontra)⟩
    · rintro ⟨hi, hne⟩; exact ⟨hi, fun hcontra => hne (hqe.mp hcontra)⟩
  have hvary : kg.varyHeaders.filterMap (fun h =>
      let v := r1.headerGet h
      if v = "" then none else some (h ++ ":" ++ v)) =
    kg.varyHeaders.filterMap (fun h =>
      let v := r2.headerGet h
      if v = "" then none else some (h ++ ":" ++ v)) :=
    List.filterMap_congr (fun h hmem => by simp only [hv h hmem])
  by_cases hc : kg.includeQuery ∧ r1.rawQuery ≠ ""
  · rw [if_pos hc, if_pos (hcond.mp hc), normalizeQuery_perm hq, hvary]
  · rw [if_neg hc, if_neg (fun h2 => hc (hcond.mpr h2)), hvary]

/-! ### Cacheability rules (`cache` package) -/

/-- `cache.IsCacheable`: GET/HEAD, no Authorization, and no
`no-cache` / `no-store` substring in Cache-Control. -/
def IsCacheable (r : Request) : Bool :=
  if r.method ≠ "GET" ∧ r.method ≠ "HEAD" then false
  else if r.headerGet "Authorization" ≠ "" then false
  else if containsSubstr (r.headerGet "Cache-Control") "no-cache" ∨
          containsSubstr (r.headerGet "Cache-Control") "no-store" then false
  else true

/-! ### Response header maps (`http.Header`) -/

/-- `http.Header` as an association list from names to value lists.
Header-name canonicalisation is the identity here: every access in the
modelled code uses one fixed spelling per name. -/
abbrev HMap := List (String × List String)

/-- `Header.Get`-style lookup of all values (empty when absent). -/
def hget (h : HMap) (k : String) : List String :=
  match h.find? (fun p => p.1 == k) with
  | some p => p.2
  | none => []

/-- First value, as `Header.Get` returns it. -/
def hget1 (h : HMap) (k : String) : String := (hget h k).headD ""

/-- `Header.Set`-style update (replace all values of `k`). Go's map has
unordered iteration, so the model keeps entries in a canonical order:
the updated key in front of the remaining entries. -/
def hset (h : HMap) (k : String) (vs : List String) : HMap :=
  (k, vs) :: h.filter (fun p => p.1 != k)

/-- `Header.Add`: append one value. -/
def hadd (h : HMap) (k : String) (v : String) : HMap := hset h k (hget h k ++ [v])

/-- `for k, v := range src { dst[k] = v }`. -/
def hcopy (dst src : HMap) : HMap := src.foldl (fun acc p => hset acc p.1 p.2) dst

theorem hget_filter_ne (h : HMap) (k k' : String) (hne : k' ≠ k) :
    hget (h.filter (fun p => p.1 != k)) k' = hget h k' := by
  induction h with
  | nil => rfl
  | cons p t ih =>
    by_cases hp : p.1 = k
    · have h1 : (p.1 != k) = false := by simp [hp]
      have h2 : (p.1 == k') = false := beq_false_of_ne (hp ▸ fun he => hne he.symm)
      simp only [List.filter_cons, h1, if_neg, Bool.false_eq_true, not_false_iff, hget,
        List.find?, h2]
      exact ih
    · have h1 : (p.1 != k) = true := by simp [hp]
      simp only [List.filter_cons, h1, if_pos, hget, List.find?]
      cases hfind : (p.1 == k') with
      | true => rfl
      | false => exact ih

theorem hget_hset (h : HMap) (k k' : String) (vs : List String) :
    hget (hset h k vs) k' = if k' = k then vs else hget h k' := by
  by_cases hk : k' = k
  · subst hk
    simp [hset, hget, List.find?]
  · have hne : (k == k') = false := beq_false_of_ne (fun he => hk he.symm)
    simp only [hset, hget, List.find?, hne, if_neg hk]
    exact hget_filter_ne h k k' hk

theorem hget1_hset (h : HMap) (k k' : String) (vs : List String) :
    hget1 (hset h k vs) k' = if k' = k then vs.headD "" else hget1 h k' := by
  unfold hget1
  rw [hget_hset]
  by_cases hk : k' = k <;> simp [hk]

/-- `cache.IsResponseCacheable`: whitelisted status, no Set-Cookie, no
`no-store`/`private` in Cache-Control, and no `Pragma: no-cache`. -/
def IsResponseCacheable (statusCode : Nat) (headers : HMap) : Bool :=
  if statusCode ≠ 200 ∧ statusCode ≠ 203 ∧ statusCode ≠ 204 ∧
     statusCode ≠ 301 ∧ statusCode ≠ 302 then false
  else if hget1 headers "Set-Cookie" ≠ "" then false
  else if containsSubstr (hget1 headers "Cache-Control") "no-store" ∨
          containsSubstr (hget1 headers "Cache-Control") "private" then false
  else if hget1 headers "Pragma" = "no-cache" then false
  else true

/-! ### Cache metadata (`cache.Meta`, defined with the store contract) -/

/-- `cache.Meta`. `ttl` and times are in nanoseconds (`time.Duration`
and `time.Time` at nanosecond resolution). -/
structure Meta where
  contentType : String
  encoding : String
  size : Int
  etag : String
  ttl : Int
  cachedAt : Int
  statusCode : Nat
  headers : List (String × String)
deriving DecidableEq

/-- `time.Duration.Seconds` truncated to `int64`, the conversion the
middleware applies to ages and TTL remainders (exact on whole-second
durations; Go routes it through a float64 division by 1e9). -/
def durTruncSeconds (d : Int) : Int := Int.tdiv d 1000000000

/-- `Meta.Age`: age of the entry in (truncated) seconds. -/
def metaAge (now : Int) (m : Meta) : Int := durTruncSeconds (now - m.cachedAt)

/-- `Meta.IsExpired`: `TTL > 0` and age beyond TTL. -/
def metaIsExpired (now : Int) (m : Meta) : Bool :=
  if m.ttl ≤ 0 then false else decide (now - m.cachedAt > m.ttl)

/-- `strconv.FormatInt(i, 10)`. -/
def formatInt (i : Int) : String := toString i

/-! ### The response writer, the recorder, and the middleware -/

/-- The effects observed by the underlying `http.ResponseRespWriter`: its
mutable header map, the status codes written, and the body chunks
written to the client connection. -/
structure RespWriter where
  headers : HMap
  statusWrites : List Nat
  bodyChunks : List (List Nat)
deriving DecidableEq

/-- One step of an upstream handler's interaction with its
`http.ResponseRespWriter`: mutate a header, write the status, write bytes. -/
inductive HAction where
  | setHeader (k v : String)
  | writeHeader (code : Nat)
  | write (data : List Nat)

/-- Running a handler directly against the underlying writer (the
bypass paths, where no recorder is interposed). -/
def runPlain (w : RespWriter) (acts : List HAction) : RespWriter :=
  acts.foldl (fun w a =>
    match a with
    | .setHeader k v => { w with headers := hset w.headers k [v] }
    | .writeHeader c => { w with statusWrites := w.statusWrites ++ [c] }
    | .write d => { w with bodyChunks := w.bodyChunks ++ [d] }) w

/-- `cachemiddleware.responseRecorder`: captured status, captured
headers and buffered body. -/
structure Recorder where
  statusCode : Nat
  rheaders : HMap
  body : List Nat
deriving DecidableEq

/-- The recorder `fetchAndCache` interposes: `statusCode` starts at
`http.StatusOK` with empty captured headers and body. -/
def newRecorder : Recorder := { statusCode := 200, rheaders := [], body := [] }

/-- Running a handler against the recorder-wrapped writer.
`Header()` is promoted from the embedded writer, so `setHeader`
mutates the underlying map; `WriteHeader` only records (it is not
forwarded); `Write` buffers and mirrors to the underlying writer. -/
def runRecorded (w : RespWriter) (rec : Recorder) (acts : List HAction) : RespWriter × Recorder :=
  acts.foldl (fun p a =>
    match a with
    | .setHeader k v => ({ p.1 with headers := hset p.1.headers k [v] }, p.2)
    | .writeHeader c => (p.1, { p.2 with statusCode := c, rheaders := hcopy p.2.rheaders p.1.headers })
    | .write d => ({ p.1 with bodyChunks := p.1.bodyChunks ++ [d] },
                   { p.2 with body := p.2.body ++ d })) (w, rec)

/-- `cachemiddleware.Stats`. -/
structure Stats where
  hits : Nat
  misses : Nat
  puts : Nat
  errors : Nat
  bypasses : Nat
deriving DecidableEq

/-- `cachemiddleware.OptimizationMode`. -/
inductive OptimizationMode where
  | disabled
  | sync
  | async

/-- `cachemiddleware.Config`. Path regexes are abstract predicates on
the path; the optimization pipeline is an abstract function on the
buffered bytes and metadata (its internals are exercised separately by
the optimizer transforms below). -/
structure MWConfig where
  enabled : Bool
  keyGen : KeyGenerator
  cacheablePaths : List (String → Bool)
  defaultTTL : Int
  maxCacheSize : Int
  optMode : OptimizationMode
  pipeline : Option (List Nat → Meta → Except Unit (List Nat × Meta))
  hasWorkerQueue : Bool
  hasOnCacheEvent : Bool

/-- `Middleware.isCacheable`: the request gate plus the path gate. -/
def mwIsCacheable (cfg : MWConfig) (r : Request) : Bool :=
  if ¬ IsCacheable r then false
  else if cfg.cacheablePaths.length > 0 ∧ ¬ cfg.cacheablePaths.any (fun p => p r.urlPath) then
    false
  else true

/-- Outcome of `store.Get` as the middleware observes it. -/
inductive GetResult where
  | storeError
  | notFound
  | found (body : List Nat) (meta : Meta)

/-- What one `ServeHTTP` call did: the final writer, the final stats,
every `store.Put` call that was issued, every job enqueued, and the
`OnCacheEvent` invocations in order. -/
structure ServeResult where
  writer : RespWriter
  stats : Stats
  putCalls : List (String × List Nat × Meta)
  enqueued : List String
  events : List (String × String × Int)
deriving DecidableEq

/-- `Middleware.serveCachedResponse` (hit path): cache headers, content
headers, conditional Cache-Control, preserved meta headers, status,
then the body is streamed. -/
def serveCachedResponse (now : Int) (host : String) (hasEvent : Bool) (w : RespWriter)
    (body : List Nat) (m : Meta) : RespWriter × List (String × String × Int) :=
  let h := hset w.headers "X-Cache" ["HIT"]
  let h := hset h "Age" [formatInt (metaAge now m)]
  let h := if m.contentType ≠ "" then hset h "Content-Type" [m.contentType] else h
  let h := if m.encoding ≠ "" then hset h "Content-Encoding" [m.encoding] else h
  let h := if m.etag ≠ "" then hset h "ETag" [m.etag] else h
  let remainingTTL := m.ttl - (now - m.cachedAt)
  let h := if remainingTTL > 0 then
      hset h "Cache-Control" ["public, max-age=" ++ formatInt (durTruncSeconds remainingTTL)]
    else h
  let h := m.headers.foldl (fun acc kv => hset acc kv.1 [kv.2]) h
  let w' := { headers := h, statusWrites := w.statusWrites ++ [m.statusCode],
              bodyChunks := w.bodyChunks ++ [body] }
  (w', if hasEvent ∧ body.length > 0 then [(host, "traffic", (body.length : Int))] else [])

/-- `Middleware.writeRecordedResponse`: re-add every captured header,
write the captured status, replay the buffered body, emit traffic. -/
def writeRecordedResponse (hasEvent : Bool) (host : String) (w : RespWriter) (rec : Recorder) :
    RespWriter × List (String × String × Int) :=
  let h := rec.rheaders.foldl (fun acc p => p.2.foldl (fun a v => hadd a p.1 v) acc) w.headers
  let w' := { headers := h, statusWrites := w.statusWrites ++ [rec.statusCode],
              bodyChunks := w.bodyChunks ++ [rec.body] }
  (w', if hasEvent ∧ rec.body.length > 0 then [(host, "traffic", (rec.body.length : Int))] else [])

/-- `Middleware.fetchAndCache` (miss path). `putErr` abstracts the
result of `store.Put`. -/
def fetchAndCache (cfg : MWConfig) (putErr : Bool) (now : Int) (r : Request) (key : String)
    (acts : List HAction) (w0 : RespWriter) (st : Stats) : ServeResult :=
  let wr := runRecorded w0 newRecorder acts
  let w1 := wr.1
  let rec1 := wr.2
  if ¬ IsResponseCacheable rec1.statusCode rec1.rheaders then
    let out := writeRecordedResponse cfg.hasOnCacheEvent r.host w1 rec1
    { writer := out.1, stats := st, putCalls := [], enqueued := [], events := out.2 }
  else if (rec1.body.length : Int) > cfg.maxCacheSize then
    let out := writeRecordedResponse cfg.hasOnCacheEvent r.host w1 rec1
    { writer := out.1, stats := st, putCalls := [], enqueued := [], events := out.2 }
  else
    let meta0 : Meta :=
      { contentType := hget1 rec1.rheaders "Content-Type"
        encoding := ""
        size := 0
        etag := hget1 rec1.rheaders "ETag"
        ttl := cfg.defaultTTL
        cachedAt := now
        statusCode := rec1.statusCode
        headers := (["Last-Modified", "Vary"].filterMap (fun hd =>
          if hget1 rec1.rheaders hd ≠ "" then some (hd, hget1 rec1.rheaders hd) else none)) }
    let optimized : List Nat × Meta :=
      match cfg.optMode, cfg.pipeline with
      | .sync, some pl =>
        match pl rec1.body meta0 with
        | .ok bm => bm
        | .error _ => (rec1.body, meta0)
      | _, _ => (rec1.body, meta0)
    let enq : List String :=
      match cfg.optMode with
      | .async => if cfg.hasWorkerQueue ∧ cfg.pipeline.isSome then [key] else []
      | _ => []
    let putEvents := if ¬ putErr ∧ cfg.hasOnCacheEvent then
        [(r.host, "put", (optimized.1.length : Int))] else []
    let st1 := if ¬ putErr then { st with puts := st.puts + 1 } else st
    let w2 := { w1 with headers := hset w1.headers "X-Cache" ["MISS"] }
    let out := writeRecordedResponse cfg.hasOnCacheEvent r.host w2 rec1
    { writer := out.1, stats := st1, putCalls := [(key, optimized.1, optimized.2)],
      enqueued := enq, events := putEvents ++ out.2 }

/-- `Middleware.ServeHTTP`. `get` abstracts `store.Get` for the request
key; `acts` is the upstream handler's interaction with its writer. -/
def serveHTTP (cfg : MWConfig) (get : String → GetResult) (putErr : Bool) (now : Int)
    (r : Request) (acts : List HAction) (w0 : RespWriter) (st : Stats) : ServeResult :=
  if ¬ cfg.enabled then
    { writer := runPlain w0 acts, stats := st, putCalls := [], enqueued := [], events := [] }
  else if ¬ mwIsCacheable cfg r then
    { writer := runPlain w0 acts, stats := { st with bypasses := st.bypasses + 1 },
      putCalls := [], enqueued := [], events := [] }
  else
    let key := GenerateKey cfg.keyGen r
    match get key with
    | .storeError =>
      { writer := runPlain w0 acts, stats := { st with errors := st.errors + 1 },
        putCalls := [], enqueued := [], events := [] }
    | .found body meta =>
      let hitEvents := if cfg.hasOnCacheEvent then [(r.host, "hit", (0 : Int))] else []
      let out := serveCachedResponse now r.host cfg.hasOnCacheEvent w0 body meta
      { writer := out.1, stats := { st with hits := st.hits + 1 },
        putCalls := [], enqueued := [], events := hitEvents ++ out.2 }
    | .notFound =>
      let missEvents := if cfg.hasOnCacheEvent then [(r.host, "miss", (0 : Int))] else []
      let res := fetchAndCache cfg putErr now r key acts w0 { st with misses := st.misses + 1 }
      { res with events := missEvents ++ res.events }

/-! ### Optimizer transforms -/

/-- An `io.Reader` as the middleware and transforms use it: its
remaining bytes, and whether its dynamic type is an `io.ReadCloser`
(the `in.(io.ReadCloser)` type assertion). Reading drains from the
front; `io.Copy(&buf, in)` takes everything. -/
structure GoReader where
  remaining : List Nat
  isCloser : Bool
deriving DecidableEq

/-- `optimizer.MinifyConfig`. -/
structure MinifyConfig where
  html : Bool
  css : Bool
  js : Bool
  json : Bool
  svg : Bool
  xml : Bool

/-- `optimizer.DefaultMinifyConfig`. -/
def DefaultMinifyConfig : MinifyConfig :=
  { html := true, css := true, js := true, json := true, svg := true, xml := false }

/-- Go `strings.TrimSpace` restricted to ASCII space characters. -/
def trimSpaceGo (s : String) : String :=
  ⟨(s.data.dropWhile (fun c => c = ' ')).reverse.dropWhile (fun c => c = ' ') |>.reverse⟩

/-- The media type: `meta.ContentType` cut at the first `;`, trimmed. -/
def mediaTypeOf (contentType : String) : String :=
  if contentType.data.contains ';' then
    trimSpaceGo ⟨contentType.data.takeWhile (fun c => c ≠ ';')⟩
  else contentType

/-- `optimizer.shouldMinify`. -/
def shouldMinify (contentType : String) (config : MinifyConfig) : Bool :=
  let ct := toLowerGo contentType
  if config.html ∧ (ct = "text/html" ∨ hasPrefixGo ct "text/html;") then true
  else if config.css ∧ (ct = "text/css" ∨ hasPrefixGo ct "text/css;") then true
  else if config.js ∧ (ct = "text/javascript" ∨ ct = "application/javascript" ∨
      ct = "application/x-javascript" ∨ hasPrefixGo ct "text/javascript;" ∨
      hasPrefixGo ct "application/javascript;" ∨ hasPrefixGo ct "application/x-javascript;") then
    true
  else if config.json ∧ (ct = "application/json" ∨ hasPrefixGo ct "application/json;") then true
  else if config.svg ∧ (ct = "image/svg+xml" ∨ hasPrefixGo ct "image/svg+xml;") then true
  else if config.xml ∧ (ct = "application/xml" ∨ ct = "text/xml" ∨
      hasPrefixGo ct "application/xml;" ∨ hasPrefixGo ct "text/xml;") then true
  else false

/-- The behaviour of the external `tdewolff/minify` library on one
media type and input: either the minified bytes, or an error having
consumed `consumed` bytes of the input buffer. -/
inductive MinifierOutcome where
  | ok (minified : List Nat)
  | err (consumed : Nat)

/-- `optimizer.MinifyTransform`, with the external minifier abstracted
by `minifier`. Faithful to the source: the input is drained into a
buffer by `io.Copy`; on a minifier error the original *reader object*
(already drained) is handed back when it is a ReadCloser, otherwise
the partially-consumed buffer is. -/
def MinifyTransform (config : MinifyConfig) (minifier : String → List Nat → MinifierOutcome)
    (inr : GoReader) (meta : Meta) : Except String (GoReader × Meta) :=
  if meta.contentType = "" then
    .ok (inr, meta)
  else
    let mediaType := mediaTypeOf meta.contentType
    if ¬ shouldMinify mediaType config then .ok (inr, meta)
    else
      let buf := inr.remaining
      match minifier mediaType buf with
      | .ok minified =>
        .ok ({ remaining := minified, isCloser := true },
             { meta with size := (minified.length : Int) })
      | .err consumed =>
        if inr.isCloser then .ok ({ inr with remaining := [] }, meta)
        else .ok ({ remaining := buf.drop consumed, isCloser := true }, meta)

/-- `optimizer.CompressionType`. -/
inductive CompressionType where
  | gzip
  | brotli
  | none

/-- `optimizer.CompressConfig`. -/
structure CompressConfig where
  ctype : CompressionType
  level : Int
  minSize : Int

/-- `optimizer.CompressTransform`, with the external compressor (gzip
or brotli at the configured level) abstracted by `compressFn`.
Faithful to the source: `io.Copy(w, &buf)` drains the buffer before
the `compressed.Len() >= written` check, so the "no gain" branch
returns that drained buffer. -/
def CompressTransform (config : CompressConfig) (compressFn : List Nat → List Nat)
    (inr : GoReader) (meta : Meta) : Except String (GoReader × Meta) :=
  if meta.encoding ≠ "" ∧ meta.encoding ≠ "identity" then .ok (inr, meta)
  else
    let buf := inr.remaining
    let written : Int := (buf.length : Int)
    if written < config.minSize then
      .ok ({ remaining := buf, isCloser := true }, { meta with size := written })
    else
      match config.ctype with
      | .gzip | .brotli =>
        let compressed := compressFn buf
        let encoding := match config.ctype with
          | .gzip => "gzip"
          | .brotli => "br"
          | .none => ""
        if (compressed.length : Int) ≥ written then
          .ok ({ remaining := [], isCloser := true }, { meta with size := written })
        else
          .ok ({ remaining := compressed, isCloser := true },
               { meta with encoding := encoding, size := (compressed.length : Int) })
      | .none =>
        .ok ({ remaining := buf, isCloser := true }, { meta with size := written })

/-- `optimizer.DecompressTransform`, with the external decompressors
abstracted by `decompressFn` (returning `Option.none` on a corrupt
stream, which the transform surfaces as an error). -/
def DecompressTransform (decompressFn : String → List Nat → Option (List Nat))
    (inr : GoReader) (meta : Meta) : Except String (GoReader × Meta) :=
  if meta.encoding = "" ∨ meta.encoding = "identity" then .ok (inr, meta)
  else if meta.encoding = "gzip" ∨ meta.encoding = "br" then
    match decompressFn meta.encoding inr.remaining with
    | some decompressed =>
      .ok ({ remaining := decompressed, isCloser := true },
           { meta with encoding := "", size := (decompressed.length : Int) })
    | none => .error "failed to decompress"
  else .ok (inr, meta)

/-! ### Filesystem store: sharded paths and PurgePrefix -/

/-- `filepath.Join` of two components, for the non-empty, already-clean
components occurring here. -/
def joinPath (a b : String) : String :=
  if a = "" then b else if b = "" then a else a ++ "/" ++ b

/-- `FSStore.getShardedPath`: up to `shardDepth` nested two-character
directories taken from the key prefix. -/
def getShardedPath (rootDir : String) (shardDepth : Nat) (key : String) (suffix : String) :
    String :=
  if shardDepth = 0 then joinPath rootDir (key ++ suffix)
  else
    let shardParts := (List.range shardDepth).filterMap (fun i =>
      if i * 2 < key.length then some ⟨(key.data.drop (i * 2)).take 2⟩ else none)
    let path := joinPath rootDir (shardParts.foldl joinPath "")
    joinPath path (key ++ suffix)

/-- `FSStore.getDataPath`. -/
def getDataPath (rootDir : String) (shardDepth : Nat) (key : String) : String :=
  getShardedPath rootDir shardDepth key ".data"

/-- `FSStore.PurgePrefix`: walk the data files and delete every entry
whose *full path* contains `prefix` as a substring (the key is only
recovered afterwards, to address the delete). The store is modelled by
the list of keys it holds. -/
def PurgePrefix (rootDir : String) (shardDepth : Nat) (keys : List String)
    (pre : String) : List String :=
  keys.filter (fun k => ¬ containsSubstr (getDataPath rootDir shardDepth k) pre)

/-! ### Worker pool queue -/

/-- `cachemiddleware.OptimizationJob` (store and pipeline handles are
identified by the key for the queue model). -/
structure OptimizationJob where
  key : String
deriving DecidableEq

/-- The worker pool's bounded job channel: buffered jobs and capacity. -/
structure WorkerQueue where
  capacity : Nat
  queue : List OptimizationJob
deriving DecidableEq

/-- `Worker.Enqueue`: non-blocking send with a `default` branch — a
full queue drops the job; both branches return `nil`. The second
component is the returned `error`. -/
def Enqueue (w : WorkerQueue) (job : OptimizationJob) : WorkerQueue × Option String :=
  if w.queue.length < w.capacity then ({ w with queue := w.queue ++ [job] }, Option.none)
  else (w, Option.none)

/-! ### Middleware bookkeeping lemmas -/

/-- The payloads of the `write` actions, in order. -/
def actWrites : List HAction → List (List Nat)
  | [] => []
  | .write d :: t => d :: actWrites t
  | _ :: t => actWrites t

/-- Total number of body bytes an upstream handler writes. -/
def upstreamBytes (acts : List HAction) : Nat := ((actWrites acts).map List.length).sum

/-- Total number of body bytes received by the client connection. -/
def totalBodyBytes (w : RespWriter) : Nat := (w.bodyChunks.map List.length).sum

theorem runRecorded_writer_chunks (acts : List HAction) :
    ∀ (w : RespWriter) (rec : Recorder),
      (runRecorded w rec acts).1.bodyChunks = w.bodyChunks ++ actWrites acts ∧
      (runRecorded w rec acts).2.body = rec.body ++ (actWrites acts).flatten := by
  induction acts with
  | nil => intro w rec; simp [runRecorded, actWrites]
  | cons a t ih =>
    intro w rec
    cases a with
    | setHeader k v =>
      have := ih { w with headers := hset w.headers k [v] } rec
      simpa [runRecorded, actWrites, List.foldl_cons] using this
    | writeHeader c =>
      have := ih w { rec with statusCode := c, rheaders := hcopy rec.rheaders w.headers }
      simpa [runRecorded, actWrites, List.foldl_cons] using this
    | write d =>
      have := ih { w with bodyChunks := w.bodyChunks ++ [d] } { rec with body := rec.body ++ d }
      rcases this with ⟨h1, h2⟩
      constructor
      · simpa [runRecorded, actWrites, List.foldl_cons, List.append_assoc] using h1
      · simpa [runRecorded, actWrites, List.foldl_cons, List.append_assoc] using h2

theorem writeRecordedResponse_chunks (hasEvent : Bool) (host : String) (w : RespWriter)
    (rec : Recorder) :
    (writeRecordedResponse hasEvent host w rec).1.bodyChunks = w.bodyChunks ++ [rec.body] := by
  simp [writeRecordedResponse]

/-- Recorder state is untouched by actions that are not `writeHeader`. -/
theorem runRecorded_no_writeHeader (acts : List HAction)
    (hno : ∀ a ∈ acts, ∀ c, a ≠ .writeHeader c) :
    ∀ (w : RespWriter) (rec : Recorder),
      (runRecorded w rec acts).2.statusCode = rec.statusCode ∧
      (runRecorded w rec acts).2.rheaders = rec.rheaders := by
  induction acts with
  | nil => intro w rec; simp [runRecorded]
  | cons a t ih =>
    intro w rec
    have hnt : ∀ a ∈ t, ∀ c, a ≠ .writeHeader c := fun a ha => hno a (List.mem_cons_of_mem _ ha)
    cases a with
    | setHeader k v =>
      simpa [runRecorded, List.foldl_cons] using
        ih hnt { w with headers := hset w.headers k [v] } rec
    | writeHeader c => exact absurd rfl (hno _ (List.mem_cons_self _ _) c)
    | write d =>
      simpa [runRecorded, List.foldl_cons] using
        ih hnt { w with bodyChunks := w.bodyChunks ++ [d] } { rec with body := rec.body ++ d }

theorem runRecorded_append (w : RespWriter) (rec : Recorder) (l₁ l₂ : List HAction) :
    runRecorded w rec (l₁ ++ l₂) =
      runRecorded (runRecorded w rec l₁).1 (runRecorded w rec l₁).2 l₂ := by
  unfold runRecorded
  rw [List.foldl_append]

deriving instance DecidableEq for Except

/-! ### Concrete fixtures -/

/-- A fresh underlying response writer. -/
def emptyRespWriter : RespWriter := { headers := [], statusWrites := [], bodyChunks := [] }

/-- Zeroed statistics. -/
def zeroStats : Stats := { hits := 0, misses := 0, puts := 0, errors := 0, bypasses := 0 }

/-- `GET http://example.com/path` with no headers and no query. -/
def reqNoQuery : Request :=
  { isTLS := false, host := "example.com", urlPath := "/path", rawQuery := "",
    method := "GET", headerGet := fun _ => "" }

/-- The same request with raw query `&` (which parses to no pairs). -/
def reqAmpQuery : Request := { reqNoQuery with rawQuery := "&" }

/-- The same request with raw query `a=1&b=2`. -/
def reqQueryAB : Request := { reqNoQuery with rawQuery := "a=1&b=2" }

/-- The same request with raw query `b=2&a=1`. -/
def reqQueryBA : Request := { reqNoQuery with rawQuery := "b=2&a=1" }

/-- `POST /path`: not cacheable by method. -/
def reqPost : Request := { reqNoQuery with method := "POST" }

/-- A middleware configuration with caching disabled. -/
def disabledConfig : MWConfig :=
  { enabled := false, keyGen := NewKeyGenerator, cacheablePaths := [],
    defaultTTL := 3600000000000, maxCacheSize := 10485760, optMode := .disabled,
    pipeline := Option.none, hasWorkerQueue := false, hasOnCacheEvent := false }

/-- The same configuration with caching enabled. -/
def enabledConfig : MWConfig := { disabledConfig with enabled := true }

/-- A store in which nothing is found. -/
def getNotFound : String → GetResult := fun _ => GetResult.notFound

/-- Metadata of a JSON response about to be minified. -/
def metaJson : Meta :=
  { contentType := "application/json", encoding := "", size := 1, etag := "", ttl := 0,
    cachedAt := 0, statusCode := 200, headers := [] }

/-- A minifier run that fails (as `tdewolff/minify` does on the
malformed JSON body `{`), having consumed one byte of the buffer. -/
def failingMinifier : String → List Nat → MinifierOutcome := fun _ _ => MinifierOutcome.err 1

/-- Metadata of an uncompressed plain-text response. -/
def metaPlain : Meta :=
  { contentType := "text/plain", encoding := "", size := 1024, etag := "", ttl := 0,
    cachedAt := 0, statusCode := 200, headers := [] }

/-- A compressor producing one byte more than its input, as gzip does
on incompressible input. -/
def inflateCompress : List Nat → List Nat := fun b => b ++ [0]

/-- `DefaultGzipConfig` (level -1 is `gzip.DefaultCompression`). -/
def DefaultGzipConfig : CompressConfig := { ctype := .gzip, level := -1, minSize := 1024 }

/-- A decompressor model; irrelevant on entries whose `Encoding` is
empty, which `DecompressTransform` passes through. -/
def identityDecompress : String → List Nat → Option (List Nat) := fun _ b => Option.some b

/-- 1024 incompressible bytes (above the default minimum size). -/
def incompressibleBody : List Nat := List.replicate 1024 7

/-! ### Claims -/

/-- C5: the claim says that when the minifier errors, the transform
returns a reader yielding exactly the original input bytes. The code
instead hands back the input reader object after `io.Copy` has fully
drained it: on the minifiable input byte `0x7b` (`{`, malformed JSON)
carried by a ReadCloser, the fallback reader yields no bytes at all,
while returning a nil error and the unchanged meta. -/
theorem MinifyTransform_error_fallback_drained :
    MinifyTransform DefaultMinifyConfig failingMinifier
        { remaining := [123], isCloser := true } metaJson =
      .ok ({ remaining := [], isCloser := true }, metaJson) ∧
    ([] : List Nat) ≠ [123] := by decide

set_option maxRecDepth 100000 in
/-- C6: the claim says inputs whose compressed form is not strictly
smaller are emitted unmodified. In the code, `io.Copy(w, &buf)` has
already drained the buffer when the `compressed.Len() >= written`
check fails, so the "no gain" branch emits zero bytes (with
`Size` still set to the original length and `Encoding` left empty)
instead of the original 1024-byte body. -/
theorem CompressTransform_no_gain_emits_drained_buffer :
    CompressTransform DefaultGzipConfig inflateCompress
        { remaining := incompressibleBody, isCloser := false } metaPlain =
      .ok ({ remaining := [], isCloser := true }, { metaPlain with size := 1024 }) ∧
    incompressibleBody ≠ [] := by decide

set_option maxRecDepth 100000 in
/-- C7: the claim says compress-then-decompress is the identity on the
body bytes. For an incompressible 1024-byte body the compress
transform's "no gain" branch emits the drained buffer (no bytes, with
`Encoding` left empty), and the decompress transform passes that through, so the round trip yields `[]` instead of the body. -/
theorem CompressTransform_DecompressTransform_roundtrip_fails :
    (match CompressTransform DefaultGzipConfig inflateCompress
        { remaining := incompressibleBody, isCloser := false } metaPlain with
     | .ok p => DecompressTransform identityDecompress p.1 p.2
     | .error e => .error e) =
      .ok ({ remaining := [], isCloser := true }, { metaPlain with size := 1024 }) ∧
    incompressibleBody ≠ [] := by decide

/-- C9: the claim says `PurgePrefix` deletes exactly the entries whose
recovered cache key substring-contains the prefix. The code matches
the prefix against the full sharded file path instead: under root
`cache-root` (at the default shard depth 2) the entry with key `abcd`
lives at `cache-root/ab/cd/abcd.data`, so the prefix `cache` deletes
it even though the key does not contain `cache`. -/
theorem PurgePrefix_matches_path_not_key :
    PurgePrefix "cache-root" 2 ["abcd"] "cache" = [] ∧
    containsSubstr "abcd" "cache" = false ∧
    getDataPath "cache-root" 2 "abcd" = "cache-root/ab/cd/abcd.data" := by decide

/-- C10: `Worker.Enqueue` returns a nil error both when the job is
queued and when the queue is full and the job is silently dropped, so
callers cannot observe the queue-full condition from its result. -/
theorem Enqueue_always_returns_nil_error (w : WorkerQueue) (job : OptimizationJob) :
    (Enqueue w job).2 = Option.none ∧
    ((Enqueue w job).1.queue = w.queue ++ [job] ∨ (Enqueue w job).1.queue = w.queue) := by
  unfold Enqueue
  split_ifs <;> simp

/-- C2 (amended): a request with `IsCacheable(r) = false` never leads
to a `store.Put`; when the middleware is additionally enabled, the
bypasses counter is incremented by one and the request is delegated
unchanged to the upstream handler. (With caching disabled the request
is delegated without touching the counters.) -/
theorem serveHTTP_request_gate (cfg : MWConfig) (get : String → GetResult) (putErr : Bool)
    (now : Int) (r : Request) (acts : List HAction) (w0 : RespWriter) (st : Stats)
    (hca : IsCacheable r = false) :
    (serveHTTP cfg get putErr now r acts w0 st).putCalls = [] ∧
    (cfg.enabled = true →
      (serveHTTP cfg get putErr now r acts w0 st).stats.bypasses = st.bypasses + 1 ∧
      (serveHTTP cfg get putErr now r acts w0 st).writer = runPlain w0 acts) := by
  have hmw : mwIsCacheable cfg r = false := by
    unfold mwIsCacheable
    rw [if_pos (by simp [hca])]
  by_cases hen : cfg.enabled = true
  · constructor
    · simp [serveHTTP, hen, hmw]
    · intro _
      constructor
      · simp [serveHTTP, hen, hmw]
      · simp [serveHTTP, hen, hmw]
  · constructor
    · simp [serveHTTP, hen]
    · intro h
      exact absurd h hen

/-- C2 counterexample: with caching disabled, `ServeHTTP` on the
non-cacheable `POST /path` delegates without incrementing the
bypasses counter, refuting the claim as stated (which is quantified
over every request, hence also over disabled middleware instances). -/
theorem serveHTTP_request_gate_counterexample :
    IsCacheable reqPost = false ∧
    (serveHTTP disabledConfig getNotFound false 0 reqPost [] emptyRespWriter
        zeroStats).stats.bypasses ≠ zeroStats.bypasses + 1 := by decide

/-- C2 witness: the enabled middleware on `POST /path`. -/
theorem serveHTTP_request_gate_witness :
    (serveHTTP enabledConfig getNotFound false 0 reqPost [] emptyRespWriter
        zeroStats).putCalls = [] ∧
    (serveHTTP enabledConfig getNotFound false 0 reqPost [] emptyRespWriter
        zeroStats).stats.bypasses = zeroStats.bypasses + 1 ∧
    (serveHTTP enabledConfig getNotFound false 0 reqPost [] emptyRespWriter
        zeroStats).writer = runPlain emptyRespWriter [] := by
  have h := serveHTTP_request_gate enabledConfig getNotFound false 0 reqPost []
    emptyRespWriter zeroStats (by decide)
  exact ⟨h.1, (h.2 rfl).1, (h.2 rfl).2⟩

/-- C3: on a cache miss, every upstream body write is mirrored to the
client through the recorder, and `writeRecordedResponse` then replays
the whole buffered body a second time, so the client connection
receives exactly twice the bytes the upstream handler wrote. -/
theorem serveHTTP_miss_sends_body_twice (cfg : MWConfig) (get : String → GetResult)
    (putErr : Bool) (now : Int) (r : Request) (acts : List HAction) (w0 : RespWriter)
    (st : Stats) (hen : cfg.enabled = true) (hmw : mwIsCacheable cfg r = true)
    (hmiss : get (GenerateKey cfg.keyGen r) = GetResult.notFound)
    (_hn : 0 < upstreamBytes acts) :
    totalBodyBytes (serveHTTP cfg get putErr now r acts w0 st).writer =
      totalBodyBytes w0 + 2 * upstreamBytes acts := by
  obtain ⟨hch, hbody⟩ := runRecorded_writer_chunks acts w0 newRecorder
  have hrecbody : (runRecorded w0 newRecorder acts).2.body = (actWrites acts).flatten := by
    simpa [newRecorder] using hbody
  unfold serveHTTP
  rw [if_neg (by simp [hen]), if_neg (by simp [hmw])]
  dsimp only
  rw [hmiss]
  dsimp only
  unfold fetchAndCache
  dsimp only
  split_ifs <;>
    simp [writeRecordedResponse, totalBodyBytes, hch, hrecbody, List.map_append,
      List.sum_append, List.length_flatten, upstreamBytes, Nat.two_mul, Nat.add_assoc]

/-- C3 witness: a miss for `GET /path` whose upstream writes a
3-byte body in two chunks; the client receives 6 body bytes. -/
theorem serveHTTP_miss_sends_body_twice_witness :
    0 < upstreamBytes [HAction.write [10, 20], HAction.write [30]] ∧
    totalBodyBytes (serveHTTP enabledConfig getNotFound false 0 reqNoQuery
        [HAction.write [10, 20], HAction.write [30]] emptyRespWriter zeroStats).writer =
      totalBodyBytes emptyRespWriter +
        2 * upstreamBytes [HAction.write [10, 20], HAction.write [30]] := by
  refine ⟨by decide, ?_⟩
  exact serveHTTP_miss_sends_body_twice enabledConfig getNotFound false 0 reqNoQuery
    [HAction.write [10, 20], HAction.write [30]] emptyRespWriter zeroStats
    rfl (by decide) rfl (by decide)

/-- C4 counterexample: after `WriteHeader(201); WriteHeader(404)` the
recorder holds 404, refuting "only the first status code is recorded
(further calls are ignored)". -/
theorem responseRecorder_writeHeader_counterexample :
    (runRecorded emptyRespWriter newRecorder
        [HAction.writeHeader 201, HAction.writeHeader 404]).2.statusCode = 404 ∧
    (404 : Nat) ≠ 201 := by decide

/-- C4 (amended): every `WriteHeader` call overwrites the recorded
status code, so the LAST call wins; the recorded header set is the
snapshot taken at that last call (the underlying writer's headers at
that moment, copied key-by-key over the earlier snapshots), and
actions after the last call do not alter the captured state. -/
theorem responseRecorder_writeHeader_last_wins (w : RespWriter) (rec : Recorder)
    (a₁ a₂ : List HAction) (c : Nat)
    (h₂ : ∀ a ∈ a₂, ∀ c', a ≠ HAction.writeHeader c') :
    (runRecorded w rec (a₁ ++ HAction.writeHeader c :: a₂)).2.statusCode = c ∧
    (runRecorded w rec (a₁ ++ HAction.writeHeader c :: a₂)).2.rheaders =
      hcopy (runRecorded w rec a₁).2.rheaders (runRecorded w rec a₁).1.headers := by
  rw [runRecorded_append]
  have hstep : runRecorded (runRecorded w rec a₁).1 (runRecorded w rec a₁).2
      (HAction.writeHeader c :: a₂) =
    runRecorded (runRecorded w rec a₁).1
      ⟨c, hcopy (runRecorded w rec a₁).2.rheaders (runRecorded w rec a₁).1.headers,
        (runRecorded w rec a₁).2.body⟩ a₂ := rfl
  rw [hstep]
  obtain ⟨h1, h2⟩ := runRecorded_no_writeHeader a₂ h₂ (runRecorded w rec a₁).1
    ⟨c, hcopy (runRecorded w rec a₁).2.rheaders (runRecorded w rec a₁).1.headers,
      (runRecorded w rec a₁).2.body⟩
  exact ⟨h1, h2⟩

/-- C4 witness: a header set before the last `WriteHeader(404)` is
captured; a body write after it changes nothing captured. -/
theorem responseRecorder_writeHeader_last_wins_witness :
    (runRecorded emptyRespWriter newRecorder
        ([HAction.setHeader "Content-Type" "text/html"] ++
          HAction.writeHeader 404 :: [HAction.write [1]])).2.statusCode = 404 ∧
    (runRecorded emptyRespWriter newRecorder
        ([HAction.setHeader "Content-Type" "text/html"] ++
          HAction.writeHeader 404 :: [HAction.write [1]])).2.rheaders =
      hcopy (runRecorded emptyRespWriter newRecorder
          [HAction.setHeader "Content-Type" "text/html"]).2.rheaders
        (runRecorded emptyRespWriter newRecorder
          [HAction.setHeader "Content-Type" "text/html"]).1.headers := by
  exact responseRecorder_writeHeader_last_wins emptyRespWriter newRecorder
    [HAction.setHeader "Content-Type" "text/html"] [HAction.write [1]] 404
    (by
      intro a ha c'
      simp only [List.mem_singleton] at ha
      subst ha
      intro hcon
      cases hcon)

theorem hget_foldl_hset_ne (l : List (String × String)) (h : HMap) (k : String)
    (hk : ∀ kv ∈ l, kv.1 ≠ k) :
    hget (l.foldl (fun acc kv => hset acc kv.1 [kv.2]) h) k = hget h k := by
  induction l generalizing h with
  | nil => rfl
  | cons kv t ih =>
    simp only [List.foldl_cons]
    rw [ih _ (fun kv' h' => hk kv' (List.mem_cons_of_mem _ h'))]
    rw [hget_hset, if_neg (fun he => hk kv (List.mem_cons_self _ _) he.symm)]

/-- C8: the hit path sets `X-Cache: HIT`, `Age` equal to the truncated
entry age in seconds, the stored content type, encoding and ETag when
non-empty, and `Cache-Control: public, max-age=<truncated remaining
TTL>` exactly when the remaining TTL is positive (with a monotone
clock, `TTL ≤ 0` or an exhausted remainder leaves the header
untouched); the stored status code and body follow. -/
theorem serveCachedResponse_headers (now : Int) (host : String) (hasEvent : Bool)
    (w : RespWriter) (body : List Nat) (m : Meta)
    (hm : ∀ kv ∈ m.headers, kv.1 ≠ "X-Cache" ∧ kv.1 ≠ "Age" ∧ kv.1 ≠ "Content-Type" ∧
          kv.1 ≠ "Content-Encoding" ∧ kv.1 ≠ "ETag" ∧ kv.1 ≠ "Cache-Control")
    (hel : 0 ≤ now - m.cachedAt) :
    hget (serveCachedResponse now host hasEvent w body m).1.headers "X-Cache" = ["HIT"] ∧
    hget (serveCachedResponse now host hasEvent w body m).1.headers "Age" =
      [formatInt (durTruncSeconds (now - m.cachedAt))] ∧
    (m.contentType ≠ "" →
      hget (serveCachedResponse now host hasEvent w body m).1.headers "Content-Type" =
        [m.contentType]) ∧
    (m.encoding ≠ "" →
      hget (serveCachedResponse now host hasEvent w body m).1.headers "Content-Encoding" =
        [m.encoding]) ∧
    (m.etag ≠ "" →
      hget (serveCachedResponse now host hasEvent w body m).1.headers "ETag" = [m.etag]) ∧
    (m.ttl - (now - m.cachedAt) > 0 →
      hget (serveCachedResponse now host hasEvent w body m).1.headers "Cache-Control" =
        ["public, max-age=" ++ formatInt (durTruncSeconds (m.ttl - (now - m.cachedAt)))]) ∧
    (m.ttl ≤ 0 ∨ m.ttl - (now - m.cachedAt) ≤ 0 →
      hget (serveCachedResponse now host hasEvent w body m).1.headers "Cache-Control" =
        hget w.headers "Cache-Control") ∧
    (serveCachedResponse now host hasEvent w body m).1.statusWrites =
      w.statusWrites ++ [m.statusCode] ∧
    (serveCachedResponse now host hasEvent w body m).1.bodyChunks = w.bodyChunks ++ [body] := by
  unfold serveCachedResponse
  dsimp only
  refine ⟨?_, ?_, ?_, ?_, ?_, ?_, ?_, rfl, rfl⟩
  · rw [hget_foldl_hset_ne _ _ _ (fun kv hkv => (hm kv hkv).1)]
    split_ifs <;> simp [hget_hset, metaAge]
  · rw [hget_foldl_hset_ne _ _ _ (fun kv hkv => (hm kv hkv).2.1)]
    split_ifs <;> simp [hget_hset, metaAge]
  · intro hct
    rw [hget_foldl_hset_ne _ _ _ (fun kv hkv => (hm kv hkv).2.2.1)]
    split_ifs <;> simp_all [hget_hset, metaAge]
  · intro hce
    rw [hget_foldl_hset_ne _ _ _ (fun kv hkv => (hm kv hkv).2.2.2.1)]
    split_ifs <;> simp_all [hget_hset, metaAge]
  · intro het
    rw [hget_foldl_hset_ne _ _ _ (fun kv hkv => (hm kv hkv).2.2.2.2.1)]
    split_ifs <;> simp_all [hget_hset, metaAge]
  · intro hrem
    rw [hget_foldl_hset_ne _ _ _ (fun kv hkv => (hm kv hkv).2.2.2.2.2)]
    split_ifs <;> simp_all [hget_hset, metaAge]
  · intro hom
    have hrem : ¬ (m.ttl - (now - m.cachedAt) > 0) := by
      rcases hom with h | h
      · omega
      · omega
    rw [hget_foldl_hset_ne _ _ _ (fun kv hkv => (hm kv hkv).2.2.2.2.2)]
    split_ifs <;> simp_all [hget_hset, metaAge]

/-- The stored entry of the concrete hit scenario: `StatusCode=200`,
`ContentType="text/html"`, `Encoding="br"`, `ETag="\"abc\""`,
`TTL=3600s`, cached 123 s before `now`. -/
def metaHitScenario : Meta :=
  { contentType := "text/html", encoding := "br", size := 100, etag := "\"abc\"",
    ttl := 3600000000000, cachedAt := 0, statusCode := 200, headers := [] }

/-- C8 witness: the concrete hit carries `X-Cache: HIT`, `Age: 123`,
`Content-Type: text/html`, `Content-Encoding: br`, `ETag: "abc"` and
`Cache-Control: public, max-age=3477`, and writes status 200. -/
theorem serveCachedResponse_headers_witness :
    hget (serveCachedResponse 123000000000 "example.com" false emptyRespWriter []
        metaHitScenario).1.headers "X-Cache" = ["HIT"] ∧
    hget (serveCachedResponse 123000000000 "example.com" false emptyRespWriter []
        metaHitScenario).1.headers "Age" = ["123"] ∧
    hget (serveCachedResponse 123000000000 "example.com" false emptyRespWriter []
        metaHitScenario).1.headers "Content-Type" = ["text/html"] ∧
    hget (serveCachedResponse 123000000000 "example.com" false emptyRespWriter []
        metaHitScenario).1.headers "Content-Encoding" = ["br"] ∧
    hget (serveCachedResponse 123000000000 "example.com" false emptyRespWriter []
        metaHitScenario).1.headers "ETag" = ["\"abc\""] ∧
    hget (serveCachedResponse 123000000000 "example.com" false emptyRespWriter []
        metaHitScenario).1.headers "Cache-Control" = ["public, max-age=3477"] ∧
    (serveCachedResponse 123000000000 "example.com" false emptyRespWriter []
        metaHitScenario).1.statusWrites = [200] := by
  have h := serveCachedResponse_headers 123000000000 "example.com" false emptyRespWriter []
    metaHitScenario (by intro kv hkv; cases hkv) (by decide)
  refine ⟨h.1, ?_, ?_, ?_, ?_, ?_, ?_⟩
  · have := h.2.1
    rwa [show formatInt (durTruncSeconds (123000000000 - metaHitScenario.cachedAt)) = "123"
      from by decide] at this
  · exact h.2.2.1 (by decide)
  · exact h.2.2.2.1 (by decide)
  · exact h.2.2.2.2.1 (by decide)
  · have := h.2.2.2.2.2.1 (by decide)
    rwa [show "public, max-age=" ++
        formatInt (durTruncSeconds (metaHitScenario.ttl - (123000000000 -
          metaHitScenario.cachedAt))) = "public, max-age=3477" from by decide] at this
  · simpa using h.2.2.2.2.2.2.2.1

/-- C1 (amended): two requests agreeing on the TLS-derived scheme,
Host, path, the multiset of parsed query key/value pairs, the
emptiness of the raw query string, and the values of every configured
Vary header receive byte-identical 64-character lowercase-hex keys.
(The raw-query-emptiness condition is forced: the normalized-query
component is appended only when the raw query is non-empty.) -/
theorem GenerateKey_deterministic (kg : KeyGenerator) (r1 r2 : Request)
    (hs : r1.isTLS = r2.isTLS) (hh : r1.host = r2.host) (hp : r1.urlPath = r2.urlPath)
    (hq : (parseQueryGo r1.rawQuery).Perm (parseQueryGo r2.rawQuery))
    (hqe : r1.rawQuery = "" ↔ r2.rawQuery = "")
    (hv : ∀ h ∈ kg.varyHeaders, r1.headerGet h = r2.headerGet h) :
    GenerateKey kg r1 = GenerateKey kg r2 ∧
    (GenerateKey kg r1).length = 64 ∧
    (∀ c ∈ (GenerateKey kg r1).data, c ∈ hexDigits) := by
  refine ⟨?_, ?_, ?_⟩
  · unfold GenerateKey
    rw [keyParts_deterministic kg r1 r2 hs hh hp hq hqe hv]
  · unfold GenerateKey
    rw [hexEncode_length, sha256_length]
  · exact hexEncode_chars _

/-- C1 witness: `?a=1&b=2` and `?b=2&a=1` on
`GET http://example.com/path` produce the same 64-character key under
the default key generator. -/
theorem GenerateKey_deterministic_witness :
    GenerateKey NewKeyGenerator reqQueryAB = GenerateKey NewKeyGenerator reqQueryBA ∧
    (GenerateKey NewKeyGenerator reqQueryAB).length = 64 := by
  have h := GenerateKey_deterministic NewKeyGenerator reqQueryAB reqQueryBA rfl rfl rfl
    (by decide) (by decide) (fun h _ => rfl)
  exact ⟨h.1, h.2.1⟩

set_option maxRecDepth 40000 in
/-- C1 counterexample: raw queries `""` and `"&"` both parse to the
empty multiset of pairs (and the requests agree on scheme, host, path
and the configured `Accept-Encoding` value), yet the generated keys
differ, because the fingerprint gains an empty normalized-query
component exactly when the raw query is non-empty. -/
theorem GenerateKey_multiset_agreement_counterexample :
    reqNoQuery.isTLS = reqAmpQuery.isTLS ∧
    reqNoQuery.host = reqAmpQuery.host ∧
    reqNoQuery.urlPath = reqAmpQuery.urlPath ∧
    parseQueryGo reqNoQuery.rawQuery = parseQueryGo reqAmpQuery.rawQuery ∧
    reqNoQuery.headerGet "Accept-Encoding" = reqAmpQuery.headerGet "Accept-Encoding" ∧
    GenerateKey NewKeyGenerator reqNoQuery ≠ GenerateKey NewKeyGenerator reqAmpQuery := by
  refine ⟨rfl, rfl, rfl, by decide, rfl, ?_⟩
  decide
